import Mathlib

/-!
Verification development for the delayed-perception boids simulation
(`boids.py`).  The simulation core is embedded shallowly:

* Python floats are idealised as real numbers `ℝ`; `math.sqrt` becomes
  `Real.sqrt`.
* A `collections.deque` with a `maxlen` bound becomes a `HistDeque`: a list
  together with its capacity, where `push` appends on the right and drops
  from the left once the capacity is exceeded.
* Python negative indexing `h[-D]` (as used for the delayed reads) becomes
  `negIndex`, returning `none` exactly when Python would raise `IndexError`.
* The spatial grid dictionary becomes a function from integer cell pairs to
  (possibly empty) lists of boid indices, built by successive insertions in
  boid order, mirroring dictionary insertion semantics.
* `update_boids` mutates each boid in place while iterating; this is
  modelled by threading the list of boids through a sequential fold that
  overwrites one index at a time, so that later boids observe earlier
  boids' already-committed updates, exactly as the Python loop does.
* A read that Python would crash on (`IndexError` from
  `velocity_history[-D]`) propagates as `Option.none`.
-/

open Classical

set_option maxHeartbeats 1000000

/-- Append `a` on the right of `l`, dropping elements from the left so that
at most `cap` elements remain: the behaviour of `deque.append` with
`maxlen = cap`. -/
def pushMax (cap : ℕ) (l : List α) (a : α) : List α :=
  (l ++ [a]).drop (l.length + 1 - cap)

/-- Python negative indexing `h[-D]` for `D ≥ 0`: `h[-0]` is `h[0]`, and for
`D ≥ 1` the element `D` places from the right; `none` models `IndexError`. -/
def negIndex (h : List α) (D : ℕ) : Option α :=
  if D = 0 then h[0]?
  else if D ≤ h.length then h[h.length - D]? else none

/-- A `collections.deque` with a fixed `maxlen`: the list of items plus the
capacity bound. -/
structure HistDeque (α : Type) where
  maxlen : ℕ
  items : List α

/-- `deque.append`: push on the right, evicting the oldest on overflow. -/
def HistDeque.push (d : HistDeque α) (a : α) : HistDeque α :=
  ⟨d.maxlen, pushMax d.maxlen d.items a⟩

/-- The seeding loop of `BoidSimulation.__init__`: `n` successive appends of
the same sample into an initially empty deque of capacity `cap`. -/
def histSeed (cap n : ℕ) (a : α) : List α :=
  (List.range n).foldl (fun l _ => pushMax cap l a) []

/-- `t` successive pushes of the samples `s 1, s 2, ...` into a buffer of
capacity `cap` that starts as `init`: the history contents after `t` ticks
of the integrator's `append` calls. -/
def iterPush (cap : ℕ) (s : ℕ → α) (init : List α) : ℕ → List α
  | 0 => init
  | t + 1 => pushMax cap (iterPush cap s init t) (s (t + 1))

/-- The `Boid` dataclass: position, velocity and the two history deques. -/
structure Boid where
  x : ℝ
  y : ℝ
  dx : ℝ
  dy : ℝ
  position_history : HistDeque (ℝ × ℝ)
  velocity_history : HistDeque (ℝ × ℝ)

/-- The engine-scoped parameters of `BoidSimulation` used during a tick. -/
structure Params where
  width : ℝ
  height : ℝ
  perception_delay : ℕ
  visual_range : ℝ

/-- `self.cell_size`, set to the visual range in `__init__`. -/
def cellSize (p : Params) : ℝ := p.visual_range

/-- `self.visual_range_sq`, precomputed as the square of the visual range. -/
def visualRangeSq (p : Params) : ℝ := p.visual_range * p.visual_range

/-- Python `int()` applied to a float: truncation toward zero. -/
noncomputable def truncToZero (r : ℝ) : ℤ :=
  if 0 ≤ r then ⌊r⌋ else ⌈r⌉

/-- The grid cell of a position, `(int(x / cell_size), int(y / cell_size))`. -/
noncomputable def cellOf (p : Params) (x y : ℝ) : ℤ × ℤ :=
  (truncToZero (x / cellSize p), truncToZero (y / cellSize p))

/-- One dictionary insertion `grid[cell].append(k)` (creating the bucket if
missing). -/
noncomputable def insertGrid (g : ℤ × ℤ → List ℕ) (c : ℤ × ℤ) (k : ℕ) :
    ℤ × ℤ → List ℕ :=
  fun c' => if c' = c then g c ++ [k] else g c'

/-- The grid-building loop of `update_boids`, over indexed boids. -/
noncomputable def buildGridAux (p : Params) :
    List (ℕ × Boid) → (ℤ × ℤ → List ℕ) → (ℤ × ℤ → List ℕ)
  | [], g => g
  | (k, b) :: rest, g => buildGridAux p rest (insertGrid g (cellOf p b.x b.y) k)

/-- Build the spatial grid from the pre-tick boid list; buckets hold boid
indices in insertion order, and absent cells give `[]`. -/
noncomputable def buildGrid (p : Params) (boids : List Boid) : ℤ × ℤ → List ℕ :=
  buildGridAux p boids.enum (fun _ => [])

/-- One entry of the neighbor list built by `get_neighbors_with_delay`:
`(other, delayed_x, delayed_y, delayed_velocity)` with the boid identified
by its index. -/
structure NeighborInfo where
  other : ℕ
  delayed_x : ℝ
  delayed_y : ℝ
  delayed_v : ℝ × ℝ

/-- The 3×3 block of cells scanned by the two nested `range` loops, in loop
order. -/
def candidateCells (cx cy : ℤ) : List (ℤ × ℤ) :=
  [cx - 1, cx, cx + 1].flatMap fun i => [cy - 1, cy, cy + 1].map fun j => (i, j)

/-- The inner loop of `get_neighbors_with_delay` over the candidate boids of
the scanned buckets: skip the boid itself, require
`len(position_history) > perception_delay`, test the delayed position
against the squared visual range, and read the delayed velocity (whose
`IndexError` propagates as `none`). -/
noncomputable def visitCandidates (p : Params) (arr : List Boid) (selfIdx : ℕ)
    (b : Boid) : List ℕ → List NeighborInfo → Option (List NeighborInfo)
  | [], acc => some acc
  | idx :: rest, acc =>
    if idx = selfIdx then visitCandidates p arr selfIdx b rest acc
    else
      match arr[idx]? with
      | none => none
      | some other =>
        if p.perception_delay < other.position_history.items.length then
          match negIndex other.position_history.items p.perception_delay with
          | none => none
          | some dpos =>
            let dx := b.x - dpos.1
            let dy := b.y - dpos.2
            if dx * dx + dy * dy < visualRangeSq p then
              match negIndex other.velocity_history.items p.perception_delay with
              | none => none
              | some dvel =>
                visitCandidates p arr selfIdx b rest
                  (acc ++ [⟨idx, dpos.1, dpos.2, dvel⟩])
            else visitCandidates p arr selfIdx b rest acc
        else visitCandidates p arr selfIdx b rest acc

/-- `get_neighbors_with_delay`: compute the querying boid's current cell,
scan the 3×3 block of buckets, and collect delayed-state neighbors. -/
noncomputable def getNeighborsWithDelay (p : Params) (grid : ℤ × ℤ → List ℕ)
    (arr : List Boid) (selfIdx : ℕ) (b : Boid) : Option (List NeighborInfo) :=
  visitCandidates p arr selfIdx b
    ((candidateCells (truncToZero (b.x / cellSize p))
      (truncToZero (b.y / cellSize p))).flatMap grid) []

/-- `fly_towards_center` (cohesion): steer toward the mean delayed neighbor
position when there is at least one neighbor. -/
noncomputable def fly_towards_center (b : Boid) (ns : List NeighborInfo) : Boid :=
  let centerX := ns.foldl (fun s e => s + e.delayed_x) 0
  let centerY := ns.foldl (fun s e => s + e.delayed_y) 0
  let n := ns.length
  if n ≠ 0 then
    { b with dx := b.dx + (centerX / n - b.x) * 0.005,
             dy := b.dy + (centerY / n - b.y) * 0.005 }
  else b

/-- `avoid_others` (separation): accumulate offsets from delayed neighbor
positions closer than `min_distance = 20`, then apply `avoid_factor`. -/
noncomputable def avoid_others (b : Boid) (ns : List NeighborInfo) : Boid :=
  let acc := ns.foldl (fun (m : ℝ × ℝ) e =>
    let dx := b.x - e.delayed_x
    let dy := b.y - e.delayed_y
    if dx * dx + dy * dy < 20 * 20 then (m.1 + dx, m.2 + dy) else m) (0, 0)
  { b with dx := b.dx + acc.1 * 0.05, dy := b.dy + acc.2 * 0.05 }

/-- `match_velocity` (alignment): steer the (already mutated) velocity toward
the mean delayed neighbor velocity. -/
noncomputable def match_velocity (b : Boid) (ns : List NeighborInfo) : Boid :=
  let avgDX := ns.foldl (fun s e => s + e.delayed_v.1) 0
  let avgDY := ns.foldl (fun s e => s + e.delayed_v.2) 0
  let n := ns.length
  if n ≠ 0 then
    { b with dx := b.dx + (avgDX / n - b.dx) * 0.05,
             dy := b.dy + (avgDY / n - b.dy) * 0.05 }
  else b

/-- The three force rules applied in source order: cohesion, separation,
alignment, each mutating the same velocity. -/
noncomputable def forcesPhase (b : Boid) (ns : List NeighborInfo) : Boid :=
  match_velocity (avoid_others (fly_towards_center b ns) ns) ns

/-- `keep_within_bounds`: four independent soft-steering checks with
`margin = 200` and `turn_factor = 1`. -/
noncomputable def keep_within_bounds (p : Params) (b : Boid) : Boid :=
  let b1 := if b.x < 200 then { b with dx := b.dx + 1 } else b
  let b2 := if b1.x > p.width - 200 then { b1 with dx := b1.dx - 1 } else b1
  let b3 := if b2.y < 200 then { b2 with dy := b2.dy + 1 } else b2
  if b3.y > p.height - 200 then { b3 with dy := b3.dy - 1 } else b3

/-- `limit_speed`: rescale the velocity to magnitude `speed_limit = 10` when
it exceeds the limit. -/
noncomputable def limit_speed (b : Boid) : Boid :=
  if Real.sqrt (b.dx * b.dx + b.dy * b.dy) > 10 then
    { b with dx := b.dx / Real.sqrt (b.dx * b.dx + b.dy * b.dy) * 10,
             dy := b.dy / Real.sqrt (b.dx * b.dx + b.dy * b.dy) * 10 }
  else b

/-- The integration tail of the per-boid update: move by the velocity, then
append the new position and the velocity to the history deques. -/
noncomputable def integrate (b : Boid) : Boid :=
  let x := b.x + b.dx
  let y := b.y + b.dy
  { b with x := x, y := y,
           position_history := b.position_history.push (x, y),
           velocity_history := b.velocity_history.push (b.dx, b.dy) }

/-- The whole per-boid body of the update loop: neighbor query, the three
forces, boundary steering, speed limiting, and integration. -/
noncomputable def stepBoid (p : Params) (grid : ℤ × ℤ → List ℕ)
    (arr : List Boid) (selfIdx : ℕ) (b : Boid) : Option Boid :=
  (getNeighborsWithDelay p grid arr selfIdx b).map fun ns =>
    integrate (limit_speed (keep_within_bounds p (forcesPhase b ns)))

/-- The sequential, in-place update loop: each boid is replaced in the array
as soon as it is updated, so later iterations observe earlier boids'
current-tick state. -/
noncomputable def seqStep (p : Params) (grid : ℤ × ℤ → List ℕ) :
    List ℕ → List Boid → Option (List Boid)
  | [], arr => some arr
  | i :: rest, arr =>
    (arr[i]?).bind fun b =>
      (stepBoid p grid arr i b).bind fun b' =>
        seqStep p grid rest (arr.set i b')

/-- `update_boids`: build the grid from the pre-tick positions, then run the
sequential in-place per-boid update over all indices. -/
noncomputable def update_boids (p : Params) (boids : List Boid) :
    Option (List Boid) :=
  seqStep p (buildGrid p boids) (List.range boids.length) boids

/-- The two-phase compute-then-commit variant described by the spec: every
boid's update is computed against the frozen pre-tick array, and all
results are committed together. -/
noncomputable def mapStep (p : Params) (grid : ℤ × ℤ → List ℕ)
    (boids : List Boid) : List ℕ → Option (List Boid)
  | [] => some []
  | i :: rest =>
    (boids[i]?).bind fun b =>
      (stepBoid p grid boids i b).bind fun b' =>
        (mapStep p grid boids rest).map fun rest' => b' :: rest'

/-- Two-phase tick: same grid, same per-boid body, but all reads against the
frozen pre-tick snapshot. -/
noncomputable def update_boids_twophase (p : Params) (boids : List Boid) :
    Option (List Boid) :=
  mapStep p (buildGrid p boids) boids (List.range boids.length)

/-- `N` successive ticks. -/
noncomputable def runN (p : Params) : ℕ → List Boid → Option (List Boid)
  | 0, boids => some boids
  | n + 1, boids =>
    match update_boids p boids with
    | none => none
    | some boids' => runN p n boids'

/-- The whole simulation object state relevant to the engine. -/
structure Simulation where
  width : ℝ
  height : ℝ
  num_boids : ℤ
  visual_range : ℝ
  perception_delay : ℕ
  boids : List Boid
  show_trajectories : Bool

/-- One boid as created by `__init__`: position/velocity from the random
draws, position history capacity 100, velocity history capacity
`delay + 1`, both seeded with `delay + 1` copies of the initial sample. -/
def mkBoid (delay : ℕ) (x y dx dy : ℝ) : Boid :=
  ⟨x, y, dx, dy,
   ⟨100, histSeed 100 (delay + 1) (x, y)⟩,
   ⟨delay + 1, histSeed (delay + 1) (delay + 1) (dx, dy)⟩⟩

/-- `BoidSimulation.__init__` (minus the pygame window): record the
configuration unchecked and create `num_boids` boids from the stream of
random draws `rand` (the four `np.random.rand()` values per boid, scaled
exactly as the source does). -/
noncomputable def mkSim (width height : ℝ) (perception_delay : ℕ) (num_boids : ℤ)
    (vis_range : ℝ) (rand : ℕ → ℝ × ℝ × ℝ × ℝ) : Simulation :=
  { width := width
    height := height
    num_boids := num_boids
    visual_range := vis_range
    perception_delay := perception_delay
    show_trajectories := false
    boids := (List.range num_boids.toNat).map fun k =>
      mkBoid perception_delay ((rand k).1 * width) ((rand k).2.1 * height)
        ((rand k).2.2.1 * 10 - 5) ((rand k).2.2.2 * 10 - 5) }

/-- The K_UP handler of `run`: `perception_delay = min(10, delay + 1)`. -/
def delayUp (d : ℕ) : ℕ := min 10 (d + 1)

/-- The K_DOWN handler of `run`: `perception_delay = max(1, delay - 1)`. -/
def delayDown (d : ℕ) : ℕ := max 1 (d - 1)

/-- Squared-speed bound `dx² + dy² ≤ speed_limit²`, the post-limit invariant. -/
def speedOK (b : Boid) : Prop := b.dx * b.dx + b.dy * b.dy ≤ 100

/-- The history-buffer shape invariant for configured delay `D`: the
capacities fixed at construction, a position history between `D + 1` and
`100` samples long, and a velocity history pinned at `D + 1` samples. -/
def histOK (D : ℕ) (b : Boid) : Prop :=
  b.position_history.maxlen = 100 ∧
  b.velocity_history.maxlen = D + 1 ∧
  D + 1 ≤ b.position_history.items.length ∧
  b.position_history.items.length ≤ 100 ∧
  b.velocity_history.items.length = D + 1

/-- Parameters of the spec's two-agent scenario: 1024×768 arena, delay 1,
visual range 75. -/
def scenParams : Params := ⟨1024, 768, 1, 75⟩

/-- Agent `A` of the scenario: at (0,0) with velocity (1,0), buffers
pre-seeded with the initial state (delay 1, so two copies). -/
def boidA : Boid :=
  ⟨0, 0, 1, 0, ⟨100, [(0, 0), (0, 0)]⟩, ⟨2, [(1, 0), (1, 0)]⟩⟩

/-- Agent `B` of the scenario: at (10,0) with velocity (-1,0), pre-seeded. -/
def boidB : Boid :=
  ⟨10, 0, -1, 0, ⟨100, [(10, 0), (10, 0)]⟩, ⟨2, [(-1, 0), (-1, 0)]⟩⟩

/-- The scenario's agent list, iterated in order `A`, `B`. -/
def scen : List Boid := [boidA, boidB]

/-- The neighbor entry `A` sees for `B` in the first tick: `B`'s seeded
delayed position (10,0) and velocity (-1,0). -/
def nbrA : NeighborInfo := ⟨1, 10, 0, (-1, 0)⟩

/-- Agent `A` after its in-place first-tick update: forces give dx = 0.4725,
the boundary rule adds +1 to both components, integration moves `A` and
pushes the new samples. -/
def boidA1 : Boid :=
  ⟨1.4725, 1, 1.4725, 1,
   ⟨100, [(0, 0), (0, 0), (1.4725, 1)]⟩,
   ⟨2, [(1, 0), (1.4725, 1)]⟩⟩

/-- The neighbor entry `B` sees for `A` in the sequential loop: `A`'s
already-updated tick-1 sample, because delay 1 reads the newest entry. -/
def nbrB : NeighborInfo := ⟨0, 1.4725, 1, (1.4725, 1)⟩

/-- Agent `B` after its in-place first-tick update in the sequential loop. -/
def boidB1 : Boid :=
  ⟨10.488175625, 1.00725, 0.488175625, 1.00725,
   ⟨100, [(10, 0), (10, 0), (10.488175625, 1.00725)]⟩,
   ⟨2, [(-1, 0), (0.488175625, 1.00725)]⟩⟩

/-- The neighbor entry `B` would see for `A` under the two-phase
compute-then-commit discipline: `A`'s frozen pre-tick state. -/
def nbrB2 : NeighborInfo := ⟨0, 0, 0, (1, 0)⟩

/-- Agent `B` after a first tick computed against the frozen pre-tick
snapshot (the spec's two-phase semantics). -/
def boidB2 : Boid :=
  ⟨10.5275, 1, 0.5275, 1,
   ⟨100, [(10, 0), (10, 0), (10.5275, 1)]⟩,
   ⟨2, [(-1, 0), (0.5275, 1)]⟩⟩

/-- A single isolated boid in mid-arena with speed 50, used to exercise the
zero-neighbor path and the speed limiter on a real tick. -/
def bSolo : Boid :=
  ⟨500, 384, 30, 40, ⟨100, [(500, 384), (500, 384)]⟩, ⟨2, [(30, 40), (30, 40)]⟩⟩

/-- The isolated boid after one tick: no neighbors, no boundary steering,
speed rescaled from 50 to 10, then integrated and logged. -/
def bSolo1 : Boid :=
  ⟨506, 392, 6, 8, ⟨100, [(500, 384), (500, 384), (506, 392)]⟩, ⟨2, [(30, 40), (6, 8)]⟩⟩

theorem pushMax_length (cap : ℕ) (l : List α) (a : α) :
    (pushMax cap l a).length = min (l.length + 1) cap := by
  simp [pushMax]
  omega

theorem pushMax_reverse (cap : ℕ) (l : List α) (a : α) :
    (pushMax cap l a).reverse = (a :: l.reverse).take cap := by
  unfold pushMax
  rw [List.reverse_drop]
  simp only [List.reverse_append, List.reverse_cons, List.reverse_nil,
    List.nil_append, List.singleton_append, List.length_append,
    List.length_cons, List.length_nil]
  rcases Nat.le_total cap (l.length + 1) with h | h
  · congr 1
    omega
  · rw [Nat.sub_eq_zero_of_le h, Nat.sub_zero,
      List.take_of_length_le (by simp), List.take_of_length_le (by simp; omega)]

theorem histSeed_succ (cap n : ℕ) (a : α) :
    histSeed cap (n + 1) a = pushMax cap (histSeed cap n a) a := by
  unfold histSeed
  rw [List.range_succ, List.foldl_append]
  rfl

theorem histSeed_eq_replicate (cap n : ℕ) (a : α) :
    histSeed cap n a = List.replicate (min n cap) a := by
  induction n with
  | zero => simp [histSeed]
  | succ n ih =>
    rw [histSeed_succ, ih]
    unfold pushMax
    rw [← List.replicate_succ' (min n cap) a]
    simp only [List.length_replicate]
    rw [List.drop_replicate]
    congr 1
    omega

theorem iterPush_rev (cap : ℕ) (s : ℕ → α) (m : ℕ) :
    ∀ t i, i < (iterPush cap s (List.replicate m (s 0)) t).length →
      (iterPush cap s (List.replicate m (s 0)) t).reverse[i]? = some (s (t - i)) := by
  intro t
  induction t with
  | zero =>
    intro i hi
    simp only [iterPush, List.length_replicate] at hi
    simp only [iterPush]
    rw [List.reverse_replicate, List.getElem?_replicate_of_lt hi]
    simp
  | succ t ih =>
    intro i hi
    rw [iterPush, pushMax_length] at hi
    have hicap : i < cap := by omega
    have hilen : i < (iterPush cap s (List.replicate m (s 0)) t).length + 1 := by omega
    rw [iterPush, pushMax_reverse]
    cases i with
    | zero =>
      rw [List.getElem?_take_of_lt hicap]
      simp
    | succ j =>
      have hrevlen : j < (iterPush cap s (List.replicate m (s 0)) t).reverse.length := by
        rw [List.length_reverse]
        omega
      rw [List.getElem?_take_of_lt hicap, List.getElem?_cons_succ, ih j (by omega)]
      have harith : t - j = t + 1 - (j + 1) := by omega
      rw [harith]

theorem iterPush_length_ge (cap D : ℕ) (s : ℕ → α) (hcap : D < cap) :
    ∀ t, D + 1 ≤ (iterPush cap s (List.replicate (D + 1) (s 0)) t).length ∧
      (iterPush cap s (List.replicate (D + 1) (s 0)) t).length ≤ cap := by
  intro t
  induction t with
  | zero => simp [iterPush]; omega
  | succ t ih =>
    rw [iterPush, pushMax_length]
    omega

/-- C1.  The delayed read the code performs is `history[-D]`, i.e. the
element at index `length - D` (the sample `D - 1` positions before the most
recent), not the spec's `length - 1 - D`: on a buffer seeded with two copies
of the tick-0 sample 10 and then pushed the tick-1 and tick-2 samples 20 and
30, the code's delayed read at delay 1 returns 30 (the newest sample), while
the spec's index formula `length - 1 - D` designates 20. -/
theorem C1_counterexample :
    negIndex (iterPush 100 (fun k => 10 * (k + 1)) (histSeed 100 2 10) 2) 1 = some 30 ∧
    (iterPush 100 (fun k => 10 * (k + 1)) (histSeed 100 2 10) 2)[
      (iterPush 100 (fun k => 10 * (k + 1)) (histSeed 100 2 10) 2).length - 1 - 1]? =
      some 20 ∧
    (30 : ℕ) ≠ 20 := by
  decide

/-- C1 (amended).  For delay `D ≥ 1` and a buffer of capacity `cap > D`
seeded with `D + 1` copies of the tick-0 sample `s 0` and then pushed the
tick-`k` samples `s k` for `k = 1, ..., t`, the code's delayed read
`history[-D]` returns `s (t + 1 - D)`.  Hence a neighbor that has not yet
been updated in tick `T` (whose newest entry is its tick `T - 1` sample,
`t = T - 1`) contributes exactly its tick `T - D` state, while a neighbor
already updated in tick `T` (`t = T`) contributes its tick `T - D + 1`
state — one tick later than the claim's `T - D`. -/
theorem C1_delayed_read (cap D t : ℕ) (s : ℕ → α) (h1 : 1 ≤ D) (hcap : D < cap) :
    negIndex (iterPush cap s (histSeed cap (D + 1) (s 0)) t) D = some (s (t + 1 - D)) := by
  have hseed : histSeed cap (D + 1) (s 0) = List.replicate (D + 1) (s 0) := by
    rw [histSeed_eq_replicate]
    congr 1
    omega
  rw [hseed]
  obtain ⟨hlen1, hlen2⟩ := iterPush_length_ge cap D s hcap t
  have hD : ¬ D = 0 := by omega
  have hDle : D ≤ (iterPush cap s (List.replicate (D + 1) (s 0)) t).length := by omega
  rw [negIndex, if_neg hD, if_pos hDle]
  have hrev := List.getElem?_reverse
    (l := iterPush cap s (List.replicate (D + 1) (s 0)) t) (i := D - 1) (by omega)
  rw [iterPush_rev cap s (D + 1) t (D - 1) (by omega)] at hrev
  have hidx : (iterPush cap s (List.replicate (D + 1) (s 0)) t).length - D =
      (iterPush cap s (List.replicate (D + 1) (s 0)) t).length - 1 - (D - 1) := by
    omega
  rw [hidx, ← hrev]
  have harith : t - (D - 1) = t + 1 - D := by omega
  rw [harith]

theorem C1_delayed_read_witness :
    negIndex (iterPush 2 (fun k => k) (histSeed 2 2 0) 2) 1 = some 2 :=
  C1_delayed_read 2 1 2 (fun k => k) (by decide) (by decide)

/-- C6 (code bug).  With initial delay 1 the velocity deque capacity is 2 and
it is seeded full.  Two UP presses set the delay to 3 — accepted, merely
clamped to [1,10], with no capacity check and no `DelayOutOfRange`.  After
two ticks the position history holds 2 + 2 = 4 > 3 samples, so the guard
passes, yet the velocity read `velocity_history[-3]` on the length-2 deque
is an `IndexError` (modelled as `none`): the delay is neither rejected nor
addressable. -/
theorem C6_delay_beyond_capacity :
    delayUp (delayUp 1) = 3 ∧
    histSeed (1 + 1) (1 + 1) ((0 : ℤ), (0 : ℤ)) = [(0, 0), (0, 0)] ∧
    negIndex (histSeed (1 + 1) (1 + 1) ((0 : ℤ), (0 : ℤ))) 3 = none ∧
    3 < 2 + 2 := by
  decide

/-- C10.  The tick function is a pure function of the parameters and the
agent list — the iteration orders are fixed by the list and no randomness
is consumed inside a tick — so two runs from identical initial states with
identical parameters produce identical final states after `N` ticks. -/
theorem C10_determinism (p : Params) (N : ℕ) (b1 b2 : List Boid) (h : b1 = b2) :
    runN p N b1 = runN p N b2 := by
  rw [h]

theorem C10_determinism_witness :
    runN scenParams 3 [] = runN scenParams 3 [] :=
  C10_determinism scenParams 3 [] [] rfl

/-- C4 (counterexample).  The code computes the cell with Python `int()`,
truncation toward zero: at x = -37.5 with cell size 75 the code's cell
x-index is `int(-0.5) = 0`, while mathematical floor gives
`floor(-0.5) = -1`. -/
theorem C4_counterexample :
    cellOf scenParams (-(75 / 2)) 0 = (0, 0) ∧
    ⌊(-(75 / 2) : ℝ) / cellSize scenParams⌋ = -1 := by
  have h75 : cellSize scenParams = 75 := rfl
  constructor
  · unfold cellOf truncToZero
    rw [h75, if_neg (by norm_num), if_pos (by norm_num)]
    have hc : ⌈(-(75 / 2) : ℝ) / 75⌉ = 0 := by norm_num
    have hf : ⌊(0 : ℝ) / 75⌋ = 0 := by norm_num
    rw [hc, hf]
  · rw [h75]
    norm_num

/-- C4 (amended).  The cell is computed by truncation toward zero
(`int(x / cell_size)`), which agrees with floor division exactly when the
coordinate is nonnegative (given a positive cell size); for negative
non-integer quotients the two differ, as the counterexample shows. -/
theorem C4_cell_trunc (p : Params) (x y : ℝ) (hx : 0 ≤ x) (hy : 0 ≤ y)
    (hv : 0 < p.visual_range) :
    cellOf p x y = (⌊x / cellSize p⌋, ⌊y / cellSize p⌋) := by
  unfold cellOf truncToZero cellSize
  rw [if_pos (div_nonneg hx (le_of_lt hv)), if_pos (div_nonneg hy (le_of_lt hv))]

theorem C4_cell_trunc_witness :
    cellOf scenParams 10 0 =
      (⌊(10 : ℝ) / cellSize scenParams⌋, ⌊(0 : ℝ) / cellSize scenParams⌋) :=
  C4_cell_trunc scenParams 10 0 (by norm_num) (by norm_num) (by norm_num [scenParams])

/-- C5 (counterexample).  `__init__` performs no validation at all: a
configuration with zero delay, negative agent count, negative visual range
and negative arena dimensions still constructs an engine (the negative
agent count merely yields an empty agent list, as Python's `range` would),
and no `ConfigurationError` exists anywhere in the code. -/
theorem C5_counterexample :
    (mkSim (-3) (-4) 0 (-5) (-1) (fun _ => (0, 0, 0, 0))).boids = [] ∧
    (mkSim (-3) (-4) 0 (-5) (-1) (fun _ => (0, 0, 0, 0))).visual_range = -1 ∧
    (mkSim (-3) (-4) 0 (-5) (-1) (fun _ => (0, 0, 0, 0))).perception_delay = 0 ∧
    (mkSim (-3) (-4) 0 (-5) (-1) (fun _ => (0, 0, 0, 0))).width = -3 := by
  refine ⟨rfl, rfl, rfl, rfl⟩

/-- C5 (amended).  Construction never fails and validates nothing: for every
configuration — valid or not — `__init__` records the parameters unchanged
and creates `max(agent count, 0)` agents.  There is no `ConfigurationError`
and no other construction-time failure in the engine. -/
theorem C5_no_validation (w h : ℝ) (D : ℕ) (n : ℤ) (vr : ℝ)
    (r : ℕ → ℝ × ℝ × ℝ × ℝ) :
    (mkSim w h D n vr r).boids.length = n.toNat ∧
    (mkSim w h D n vr r).visual_range = vr ∧
    (mkSim w h D n vr r).width = w ∧
    (mkSim w h D n vr r).height = h ∧
    (mkSim w h D n vr r).perception_delay = D := by
  refine ⟨?_, rfl, rfl, rfl, rfl⟩
  simp [mkSim]

theorem integrate_dx (b : Boid) : (integrate b).dx = b.dx := rfl

theorem integrate_dy (b : Boid) : (integrate b).dy = b.dy := rfl

theorem limit_speed_rescale (b : Boid)
    (h : 10 < Real.sqrt (b.dx * b.dx + b.dy * b.dy)) :
    (limit_speed b).dx * (limit_speed b).dx +
      (limit_speed b).dy * (limit_speed b).dy = 100 := by
  have hq0 : 0 ≤ b.dx * b.dx + b.dy * b.dy :=
    add_nonneg (mul_self_nonneg _) (mul_self_nonneg _)
  have hs0 : 0 < Real.sqrt (b.dx * b.dx + b.dy * b.dy) :=
    lt_trans (by norm_num) h
  have hsq : Real.sqrt (b.dx * b.dx + b.dy * b.dy) *
      Real.sqrt (b.dx * b.dx + b.dy * b.dy) = b.dx * b.dx + b.dy * b.dy :=
    Real.mul_self_sqrt hq0
  have hqpos : 0 < b.dx * b.dx + b.dy * b.dy := by nlinarith
  unfold limit_speed
  rw [if_pos h]
  have hne : Real.sqrt (b.dx * b.dx + b.dy * b.dy) ≠ 0 := ne_of_gt hs0
  field_simp
  nlinarith [hsq]

theorem limit_speed_speedOK (b : Boid) : speedOK (limit_speed b) := by
  by_cases h : 10 < Real.sqrt (b.dx * b.dx + b.dy * b.dy)
  · unfold speedOK
    rw [limit_speed_rescale b h]
  · unfold speedOK limit_speed
    rw [if_neg h]
    push_neg at h
    have hq0 : 0 ≤ b.dx * b.dx + b.dy * b.dy :=
      add_nonneg (mul_self_nonneg _) (mul_self_nonneg _)
    have hsq := Real.mul_self_sqrt hq0
    nlinarith [Real.sqrt_nonneg (b.dx * b.dx + b.dy * b.dy)]

theorem speedOK_sqrt {b : Boid} (h : speedOK b) :
    Real.sqrt (b.dx * b.dx + b.dy * b.dy) ≤ 10 := by
  have h100 : Real.sqrt 100 = 10 := by
    rw [show (100 : ℝ) = 10 ^ 2 by norm_num, Real.sqrt_sq (by norm_num : (0 : ℝ) ≤ 10)]
  calc Real.sqrt (b.dx * b.dx + b.dy * b.dy) ≤ Real.sqrt 100 := Real.sqrt_le_sqrt h
    _ = 10 := h100

theorem stepBoid_speedOK (p : Params) (g : ℤ × ℤ → List ℕ) (arr : List Boid)
    (i : ℕ) (b b' : Boid) (h : stepBoid p g arr i b = some b') : speedOK b' := by
  unfold stepBoid at h
  cases hq : getNeighborsWithDelay p g arr i b with
  | none => rw [hq] at h; simp at h
  | some ns =>
    rw [hq, Option.map_some'] at h
    cases h
    show speedOK (integrate (limit_speed (keep_within_bounds p (forcesPhase b ns))))
    exact limit_speed_speedOK _

theorem seqStep_length (p : Params) (g : ℤ × ℤ → List ℕ) :
    ∀ idxs arr arr', seqStep p g idxs arr = some arr' → arr'.length = arr.length := by
  intro idxs
  induction idxs with
  | nil =>
    intro arr arr' h
    simp only [seqStep] at h
    cases h
    rfl
  | cons i rest ih =>
    intro arr arr' h
    simp only [seqStep] at h
    cases harr : arr[i]? with
    | none => simp only [harr, Option.none_bind] at h; exact Option.noConfusion h
    | some b =>
      simp only [harr, Option.some_bind] at h
      cases hstep : stepBoid p g arr i b with
      | none => simp only [hstep, Option.none_bind] at h; exact Option.noConfusion h
      | some b' =>
        simp only [hstep, Option.some_bind] at h
        have := ih (arr.set i b') arr' h
        rw [this, List.length_set]

theorem seqStep_ok (p : Params) (g : ℤ × ℤ → List ℕ) (Q : Boid → Prop)
    (hstep : ∀ arr i b b', stepBoid p g arr i b = some b' → Q b') :
    ∀ idxs arr arr', seqStep p g idxs arr = some arr' →
      ∀ i, (i ∈ idxs ∨ (∀ b, arr[i]? = some b → Q b)) →
        ∀ b, arr'[i]? = some b → Q b := by
  intro idxs
  induction idxs with
  | nil =>
    intro arr arr' h i hi b hb
    simp only [seqStep] at h
    cases h
    rcases hi with hi | hi
    · exact absurd hi (List.not_mem_nil i)
    · exact hi b hb
  | cons j rest ih =>
    intro arr arr' h i hi b hb
    simp only [seqStep] at h
    cases harr : arr[j]? with
    | none => simp only [harr, Option.none_bind] at h; exact Option.noConfusion h
    | some bj =>
      simp only [harr, Option.some_bind] at h
      cases hstep' : stepBoid p g arr j bj with
      | none => simp only [hstep', Option.none_bind] at h; exact Option.noConfusion h
      | some bj' =>
        simp only [hstep', Option.some_bind] at h
        refine ih (arr.set j bj') arr' h i ?_ b hb
        have hset : ∀ b0, (arr.set j bj')[j]? = some b0 → Q b0 := by
          intro b0 hb0
          by_cases hlt : j < arr.length
          · rw [List.getElem?_set_self hlt] at hb0
            cases hb0
            exact hstep _ _ _ _ hstep'
          · rw [List.getElem?_eq_none (by rw [List.length_set]; omega)] at hb0
            cases hb0
        rcases hi with hi | hi
        · rcases List.mem_cons.mp hi with rfl | hmem
          · exact Or.inr hset
          · exact Or.inl hmem
        · by_cases hij : i = j
          · subst hij
            exact Or.inr hset
          · refine Or.inr fun b0 hb0 => ?_
            rw [List.getElem?_set_ne (fun hji => hij hji.symm)] at hb0
            exact hi b0 hb0

/-- C7.  After a `Step`, every agent's velocity magnitude is at most the
speed limit 10 (so certainly at most 10 plus any tolerance), because the
per-boid update ends with `limit_speed` followed by an integration step
that does not touch the velocity; and whenever the pre-limit speed exceeds
10, `limit_speed` rescales both components by the same positive factor
`10 / speed`, preserving the direction and setting the magnitude to
exactly 10. -/
theorem C7_speed_limit :
    (∀ p boids arr', update_boids p boids = some arr' →
      ∀ b' ∈ arr', Real.sqrt (b'.dx * b'.dx + b'.dy * b'.dy) ≤ 10) ∧
    (∀ b : Boid, 10 < Real.sqrt (b.dx * b.dx + b.dy * b.dy) →
      Real.sqrt ((limit_speed b).dx * (limit_speed b).dx +
        (limit_speed b).dy * (limit_speed b).dy) = 10 ∧
      ∃ c : ℝ, 0 < c ∧ (limit_speed b).dx = c * b.dx ∧
        (limit_speed b).dy = c * b.dy) := by
  constructor
  · intro p boids arr' h b' hb'
    unfold update_boids at h
    obtain ⟨i, hi⟩ := List.getElem?_of_mem hb'
    have hilen : i < arr'.length := by
      cases hlt : decide (i < arr'.length) with
      | true => exact of_decide_eq_true hlt
      | false =>
        rw [List.getElem?_eq_none (by have := of_decide_eq_false hlt; omega)] at hi
        cases hi
    have hlen := seqStep_length p (buildGrid p boids) _ _ _ h
    have hmem : i ∈ List.range boids.length := List.mem_range.mpr (by omega)
    have := seqStep_ok p (buildGrid p boids) speedOK
      (stepBoid_speedOK p (buildGrid p boids)) _ _ _ h i (Or.inl hmem) b' hi
    exact speedOK_sqrt this
  · intro b hgt
    have hq0 : 0 ≤ b.dx * b.dx + b.dy * b.dy :=
      add_nonneg (mul_self_nonneg _) (mul_self_nonneg _)
    have hs0 : 0 < Real.sqrt (b.dx * b.dx + b.dy * b.dy) :=
      lt_trans (by norm_num) hgt
    refine ⟨?_, 10 / Real.sqrt (b.dx * b.dx + b.dy * b.dy), by positivity, ?_, ?_⟩
    · rw [limit_speed_rescale b hgt,
        show (100 : ℝ) = 10 ^ 2 by norm_num,
        Real.sqrt_sq (by norm_num : (0 : ℝ) ≤ 10)]
    · unfold limit_speed
      rw [if_pos hgt]
      ring
    · unfold limit_speed
      rw [if_pos hgt]
      ring

theorem fly_towards_center_nil (b : Boid) : fly_towards_center b [] = b := by
  simp [fly_towards_center]

theorem avoid_others_nil (b : Boid) : avoid_others b [] = b := by
  simp [avoid_others]

theorem match_velocity_nil (b : Boid) : match_velocity b [] = b := by
  simp [match_velocity]

theorem forcesPhase_nil (b : Boid) : forcesPhase b [] = b := by
  unfold forcesPhase
  rw [fly_towards_center_nil, avoid_others_nil, match_velocity_nil]

theorem cellSolo : cellOf scenParams bSolo.x bSolo.y = (6, 5) := by
  show cellOf scenParams 500 384 = (6, 5)
  unfold cellOf truncToZero
  rw [show cellSize scenParams = 75 from rfl, if_pos (by norm_num),
    if_pos (by norm_num)]
  simp only [Prod.mk.injEq]
  constructor <;> norm_num

theorem gridSolo : buildGrid scenParams [bSolo] =
    fun c => if c = ((6 : ℤ), (5 : ℤ)) then [0] else [] := by
  funext c
  show buildGridAux scenParams ([bSolo].enum) (fun _ => []) c = _
  rw [show ([bSolo].enum) = [(0, bSolo)] from rfl]
  simp only [buildGridAux]
  rw [cellSolo]
  unfold insertGrid
  split_ifs <;> simp

theorem querySolo :
    getNeighborsWithDelay scenParams (buildGrid scenParams [bSolo]) [bSolo] 0 bSolo =
      some [] := by
  rw [gridSolo]
  unfold getNeighborsWithDelay
  have hcx : truncToZero (bSolo.x / cellSize scenParams) = 6 := by
    show truncToZero ((500 : ℝ) / 75) = 6
    unfold truncToZero
    rw [if_pos (by norm_num)]
    norm_num
  have hcy : truncToZero (bSolo.y / cellSize scenParams) = 5 := by
    show truncToZero ((384 : ℝ) / 75) = 5
    unfold truncToZero
    rw [if_pos (by norm_num)]
    norm_num
  rw [hcx, hcy]
  rw [show (candidateCells 6 5).flatMap
      (fun c => if c = ((6 : ℤ), (5 : ℤ)) then [0] else []) = [0] from by decide]
  simp [visitCandidates]

theorem boundsSolo : keep_within_bounds scenParams bSolo = bSolo := by
  unfold keep_within_bounds
  norm_num [bSolo, scenParams]

theorem sqrtSolo : Real.sqrt (bSolo.dx * bSolo.dx + bSolo.dy * bSolo.dy) = 50 := by
  rw [show (bSolo.dx * bSolo.dx + bSolo.dy * bSolo.dy : ℝ) = 50 ^ 2 from by
    norm_num [bSolo]]
  exact Real.sqrt_sq (by norm_num : (0 : ℝ) ≤ 50)

theorem limitSolo : limit_speed bSolo =
    ⟨500, 384, 6, 8, ⟨100, [(500, 384), (500, 384)]⟩, ⟨2, [(30, 40), (30, 40)]⟩⟩ := by
  unfold limit_speed
  rw [sqrtSolo, if_pos (by norm_num)]
  show ({ bSolo with dx := bSolo.dx / 50 * 10, dy := bSolo.dy / 50 * 10 } : Boid) = _
  norm_num [bSolo]

theorem stepSolo :
    stepBoid scenParams (buildGrid scenParams [bSolo]) [bSolo] 0 bSolo = some bSolo1 := by
  unfold stepBoid
  rw [querySolo, Option.map_some', forcesPhase_nil, boundsSolo, limitSolo]
  unfold integrate HistDeque.push pushMax
  norm_num [bSolo1]

theorem updateSolo : update_boids scenParams [bSolo] = some [bSolo1] := by
  unfold update_boids
  rw [show List.range ([bSolo] : List Boid).length = [0] from rfl]
  simp only [seqStep]
  rw [show ([bSolo] : List Boid)[0]? = some bSolo from rfl, Option.some_bind,
    stepSolo, Option.some_bind]
  rfl

/-- C8.  With an empty neighbor list the three force rules are exact no-ops
(cohesion and alignment skip their steering updates, separation adds the
zero vector), so the per-boid step reduces to boundary steering, speed
limiting and integration applied to the unchanged boid. -/
theorem C8_zero_neighbors :
    (∀ b : Boid, forcesPhase b [] = b) ∧
    (∀ (p : Params) (g : ℤ × ℤ → List ℕ) (arr : List Boid) (i : ℕ) (b : Boid),
      getNeighborsWithDelay p g arr i b = some [] →
      stepBoid p g arr i b =
        some (integrate (limit_speed (keep_within_bounds p b)))) := by
  constructor
  · exact forcesPhase_nil
  · intro p g arr i b h
    unfold stepBoid
    rw [h, Option.map_some', forcesPhase_nil]

theorem C8_zero_neighbors_witness :
    forcesPhase bSolo [] = bSolo ∧
    stepBoid scenParams (buildGrid scenParams [bSolo]) [bSolo] 0 bSolo =
      some (integrate (limit_speed (keep_within_bounds scenParams bSolo))) :=
  ⟨C8_zero_neighbors.1 bSolo,
   C8_zero_neighbors.2 scenParams (buildGrid scenParams [bSolo]) [bSolo] 0 bSolo querySolo⟩

theorem C7_speed_limit_witness :
    Real.sqrt (bSolo1.dx * bSolo1.dx + bSolo1.dy * bSolo1.dy) ≤ 10 ∧
    Real.sqrt ((limit_speed bSolo).dx * (limit_speed bSolo).dx +
      (limit_speed bSolo).dy * (limit_speed bSolo).dy) = 10 := by
  constructor
  · exact C7_speed_limit.1 scenParams [bSolo] [bSolo1] updateSolo bSolo1 (by simp)
  · exact (C7_speed_limit.2 bSolo (by rw [sqrtSolo]; norm_num)).1

theorem sqrt_not_gt_ten {x : ℝ} (h : x ≤ 100) : ¬ Real.sqrt x > 10 := by
  push_neg
  calc Real.sqrt x ≤ Real.sqrt 100 := Real.sqrt_le_sqrt h
    _ = 10 := by
      rw [show (100 : ℝ) = 10 ^ 2 by norm_num,
        Real.sqrt_sq (by norm_num : (0 : ℝ) ≤ 10)]

theorem cellA : cellOf scenParams boidA.x boidA.y = (0, 0) := by
  show cellOf scenParams 0 0 = (0, 0)
  unfold cellOf truncToZero
  rw [show cellSize scenParams = 75 from rfl, if_pos (by norm_num : (0 : ℝ) ≤ 0 / 75)]
  norm_num

theorem cellB : cellOf scenParams boidB.x boidB.y = (0, 0) := by
  show cellOf scenParams 10 0 = (0, 0)
  unfold cellOf truncToZero
  rw [show cellSize scenParams = 75 from rfl, if_pos (by norm_num),
    if_pos (by norm_num)]
  simp only [Prod.mk.injEq]
  constructor <;> norm_num

theorem gridScen : buildGrid scenParams scen =
    fun c => if c = ((0 : ℤ), (0 : ℤ)) then [0, 1] else [] := by
  funext c
  show buildGridAux scenParams (scen.enum) (fun _ => []) c = _
  rw [show scen.enum = [(0, boidA), (1, boidB)] from rfl]
  simp only [buildGridAux]
  rw [cellA, cellB]
  unfold insertGrid
  split_ifs <;> simp_all

theorem queryA :
    getNeighborsWithDelay scenParams (buildGrid scenParams scen) scen 0 boidA =
      some [nbrA] := by
  rw [gridScen]
  unfold getNeighborsWithDelay
  rw [show truncToZero (boidA.x / cellSize scenParams) = 0 from by
      show truncToZero ((0 : ℝ) / 75) = 0
      unfold truncToZero
      rw [if_pos (by norm_num)]
      norm_num]
  rw [show truncToZero (boidA.y / cellSize scenParams) = 0 from by
      show truncToZero ((0 : ℝ) / 75) = 0
      unfold truncToZero
      rw [if_pos (by norm_num)]
      norm_num]
  rw [show (candidateCells 0 0).flatMap
      (fun c => if c = ((0 : ℤ), (0 : ℤ)) then [0, 1] else []) = [0, 1] from by decide]
  have hB : scen[1]? = some boidB := rfl
  have hpos : negIndex boidB.position_history.items scenParams.perception_delay =
      some ((10 : ℝ), (0 : ℝ)) := rfl
  have hvel : negIndex boidB.velocity_history.items scenParams.perception_delay =
      some ((-1 : ℝ), (0 : ℝ)) := rfl
  simp only [visitCandidates, hB, hpos, hvel]
  norm_num [boidA, boidB, visualRangeSq, scenParams, nbrA]

theorem forcesA : forcesPhase boidA [nbrA] =
    ⟨0, 0, 0.4725, 0, ⟨100, [(0, 0), (0, 0)]⟩, ⟨2, [(1, 0), (1, 0)]⟩⟩ := by
  unfold forcesPhase fly_towards_center avoid_others match_velocity
  norm_num [boidA, nbrA]

theorem boundsA : keep_within_bounds scenParams
    ⟨0, 0, 0.4725, 0, ⟨100, [(0, 0), (0, 0)]⟩, ⟨2, [(1, 0), (1, 0)]⟩⟩ =
    ⟨0, 0, 1.4725, 1, ⟨100, [(0, 0), (0, 0)]⟩, ⟨2, [(1, 0), (1, 0)]⟩⟩ := by
  unfold keep_within_bounds
  norm_num [scenParams]

theorem limitA : limit_speed
    ⟨0, 0, 1.4725, 1, ⟨100, [(0, 0), (0, 0)]⟩, ⟨2, [(1, 0), (1, 0)]⟩⟩ =
    ⟨0, 0, 1.4725, 1, ⟨100, [(0, 0), (0, 0)]⟩, ⟨2, [(1, 0), (1, 0)]⟩⟩ := by
  unfold limit_speed
  rw [if_neg (sqrt_not_gt_ten (by norm_num))]

theorem integrateA : integrate
    ⟨0, 0, 1.4725, 1, ⟨100, [(0, 0), (0, 0)]⟩, ⟨2, [(1, 0), (1, 0)]⟩⟩ = boidA1 := by
  unfold integrate HistDeque.push pushMax
  norm_num [boidA1]

theorem stepA :
    stepBoid scenParams (buildGrid scenParams scen) scen 0 boidA = some boidA1 := by
  unfold stepBoid
  rw [queryA, Option.map_some', forcesA, boundsA, limitA, integrateA]

theorem queryBseq :
    getNeighborsWithDelay scenParams (buildGrid scenParams scen) [boidA1, boidB] 1 boidB =
      some [nbrB] := by
  rw [gridScen]
  unfold getNeighborsWithDelay
  rw [show truncToZero (boidB.x / cellSize scenParams) = 0 from by
      show truncToZero ((10 : ℝ) / 75) = 0
      unfold truncToZero
      rw [if_pos (by norm_num)]
      norm_num]
  rw [show truncToZero (boidB.y / cellSize scenParams) = 0 from by
      show truncToZero ((0 : ℝ) / 75) = 0
      unfold truncToZero
      rw [if_pos (by norm_num)]
      norm_num]
  rw [show (candidateCells 0 0).flatMap
      (fun c => if c = ((0 : ℤ), (0 : ℤ)) then [0, 1] else []) = [0, 1] from by decide]
  have hA1 : ([boidA1, boidB] : List Boid)[0]? = some boidA1 := rfl
  have hpos : negIndex boidA1.position_history.items scenParams.perception_delay =
      some ((1.4725 : ℝ), (1 : ℝ)) := rfl
  have hvel : negIndex boidA1.velocity_history.items scenParams.perception_delay =
      some ((1.4725 : ℝ), (1 : ℝ)) := rfl
  simp only [visitCandidates, hA1, hpos, hvel]
  norm_num [boidA1, boidB, visualRangeSq, scenParams, nbrB]

theorem forcesB : forcesPhase boidB [nbrB] =
    ⟨10, 0, -0.511824375, 0.00725,
     ⟨100, [(10, 0), (10, 0)]⟩, ⟨2, [(-1, 0), (-1, 0)]⟩⟩ := by
  unfold forcesPhase fly_towards_center avoid_others match_velocity
  norm_num [boidB, nbrB]

theorem boundsB : keep_within_bounds scenParams
    ⟨10, 0, -0.511824375, 0.00725,
     ⟨100, [(10, 0), (10, 0)]⟩, ⟨2, [(-1, 0), (-1, 0)]⟩⟩ =
    ⟨10, 0, 0.488175625, 1.00725,
     ⟨100, [(10, 0), (10, 0)]⟩, ⟨2, [(-1, 0), (-1, 0)]⟩⟩ := by
  unfold keep_within_bounds
  norm_num [scenParams]

theorem limitB : limit_speed
    ⟨10, 0, 0.488175625, 1.00725,
     ⟨100, [(10, 0), (10, 0)]⟩, ⟨2, [(-1, 0), (-1, 0)]⟩⟩ =
    ⟨10, 0, 0.488175625, 1.00725,
     ⟨100, [(10, 0), (10, 0)]⟩, ⟨2, [(-1, 0), (-1, 0)]⟩⟩ := by
  unfold limit_speed
  rw [if_neg (sqrt_not_gt_ten (by norm_num))]

theorem integrateB : integrate
    ⟨10, 0, 0.488175625, 1.00725,
     ⟨100, [(10, 0), (10, 0)]⟩, ⟨2, [(-1, 0), (-1, 0)]⟩⟩ = boidB1 := by
  unfold integrate HistDeque.push pushMax
  norm_num [boidB1]

theorem stepB :
    stepBoid scenParams (buildGrid scenParams scen) [boidA1, boidB] 1 boidB =
      some boidB1 := by
  unfold stepBoid
  rw [queryBseq, Option.map_some', forcesB, boundsB, limitB, integrateB]

theorem queryBtwo :
    getNeighborsWithDelay scenParams (buildGrid scenParams scen) scen 1 boidB =
      some [nbrB2] := by
  rw [gridScen]
  unfold getNeighborsWithDelay
  rw [show truncToZero (boidB.x / cellSize scenParams) = 0 from by
      show truncToZero ((10 : ℝ) / 75) = 0
      unfold truncToZero
      rw [if_pos (by norm_num)]
      norm_num]
  rw [show truncToZero (boidB.y / cellSize scenParams) = 0 from by
      show truncToZero ((0 : ℝ) / 75) = 0
      unfold truncToZero
      rw [if_pos (by norm_num)]
      norm_num]
  rw [show (candidateCells 0 0).flatMap
      (fun c => if c = ((0 : ℤ), (0 : ℤ)) then [0, 1] else []) = [0, 1] from by decide]
  have hA : scen[0]? = some boidA := rfl
  have hpos : negIndex boidA.position_history.items scenParams.perception_delay =
      some ((0 : ℝ), (0 : ℝ)) := rfl
  have hvel : negIndex boidA.velocity_history.items scenParams.perception_delay =
      some ((1 : ℝ), (0 : ℝ)) := rfl
  simp only [visitCandidates, hA, hpos, hvel]
  norm_num [boidA, boidB, visualRangeSq, scenParams, nbrB2]

theorem forcesB2 : forcesPhase boidB [nbrB2] =
    ⟨10, 0, -0.4725, 0, ⟨100, [(10, 0), (10, 0)]⟩, ⟨2, [(-1, 0), (-1, 0)]⟩⟩ := by
  unfold forcesPhase fly_towards_center avoid_others match_velocity
  norm_num [boidB, nbrB2]

theorem boundsB2 : keep_within_bounds scenParams
    ⟨10, 0, -0.4725, 0, ⟨100, [(10, 0), (10, 0)]⟩, ⟨2, [(-1, 0), (-1, 0)]⟩⟩ =
    ⟨10, 0, 0.5275, 1, ⟨100, [(10, 0), (10, 0)]⟩, ⟨2, [(-1, 0), (-1, 0)]⟩⟩ := by
  unfold keep_within_bounds
  norm_num [scenParams]

theorem limitB2 : limit_speed
    ⟨10, 0, 0.5275, 1, ⟨100, [(10, 0), (10, 0)]⟩, ⟨2, [(-1, 0), (-1, 0)]⟩⟩ =
    ⟨10, 0, 0.5275, 1, ⟨100, [(10, 0), (10, 0)]⟩, ⟨2, [(-1, 0), (-1, 0)]⟩⟩ := by
  unfold limit_speed
  rw [if_neg (sqrt_not_gt_ten (by norm_num))]

theorem integrateB2 : integrate
    ⟨10, 0, 0.5275, 1, ⟨100, [(10, 0), (10, 0)]⟩, ⟨2, [(-1, 0), (-1, 0)]⟩⟩ = boidB2 := by
  unfold integrate HistDeque.push pushMax
  norm_num [boidB2]

theorem stepB2 :
    stepBoid scenParams (buildGrid scenParams scen) scen 1 boidB = some boidB2 := by
  unfold stepBoid
  rw [queryBtwo, Option.map_some', forcesB2, boundsB2, limitB2, integrateB2]

theorem updateScen : update_boids scenParams scen = some [boidA1, boidB1] := by
  unfold update_boids
  rw [show List.range scen.length = [0, 1] from rfl]
  simp only [seqStep]
  rw [show scen[0]? = some boidA from rfl, Option.some_bind, stepA, Option.some_bind,
    show scen.set 0 boidA1 = [boidA1, boidB] from rfl,
    show ([boidA1, boidB] : List Boid)[1]? = some boidB from rfl, Option.some_bind,
    stepB, Option.some_bind,
    show ([boidA1, boidB] : List Boid).set 1 boidB1 = [boidA1, boidB1] from rfl]

theorem updateTwo : update_boids_twophase scenParams scen = some [boidA1, boidB2] := by
  unfold update_boids_twophase
  rw [show List.range scen.length = [0, 1] from rfl]
  simp only [mapStep]
  rw [show scen[0]? = some boidA from rfl, Option.some_bind, stepA, Option.some_bind,
    show scen[1]? = some boidB from rfl, Option.some_bind, stepB2, Option.some_bind]
  rfl

theorem seqStep_get_of_not_mem (p : Params) (g : ℤ × ℤ → List ℕ) :
    ∀ idxs arr arr' i, seqStep p g idxs arr = some arr' → i ∉ idxs →
      arr'[i]? = arr[i]? := by
  intro idxs
  induction idxs with
  | nil =>
    intro arr arr' i h hmem
    simp only [seqStep] at h
    cases h
    rfl
  | cons j rest ih =>
    intro arr arr' i h hmem
    simp only [seqStep] at h
    cases harr : arr[j]? with
    | none =>
      simp only [harr, Option.none_bind] at h
      exact Option.noConfusion h
    | some bj =>
      simp only [harr, Option.some_bind] at h
      cases hstep : stepBoid p g arr j bj with
      | none =>
        simp only [hstep, Option.none_bind] at h
        exact Option.noConfusion h
      | some bj' =>
        simp only [hstep, Option.some_bind] at h
        have hij : i ≠ j := fun he => hmem (he ▸ List.mem_cons_self j rest)
        rw [ih (arr.set j bj') arr' i h (fun hm => hmem (List.mem_cons_of_mem j hm)),
          List.getElem?_set_ne (fun hji => hij hji.symm)]

/-- C2 (counterexample).  The sequential in-place loop and the two-phase
compute-then-commit discipline disagree already on the spec's own two-agent
scenario: in the code's loop, `B` (updated second, at delay 1) reads `A`'s
freshly pushed tick-1 sample instead of `A`'s pre-tick state, ending the
tick at x = 10.488175625, while the two-phase tick puts `B` at
x = 10.5275. -/
theorem C2_counterexample :
    update_boids scenParams scen ≠ update_boids_twophase scenParams scen := by
  rw [updateScen, updateTwo]
  intro h
  simp only [Option.some.injEq, List.cons.injEq] at h
  have hx := congrArg Boid.x h.2.1
  norm_num [boidB1, boidB2] at hx

/-- C2 (amended).  Writes are applied in place during the loop: each agent's
new position, velocity and buffer pushes become visible to agents iterated
later in the same tick, so the sequential loop is not equivalent to a
two-phase compute-then-commit tick.  Only the grid's bucket assignment is
frozen from pre-tick positions, and only the first-iterated agent is
guaranteed to compute against a fully pre-tick snapshot: its update always
coincides with its two-phase result. -/
theorem C2_sequential_vs_twophase_head (p : Params) (boids arr1 arr2 : List Boid)
    (h1 : update_boids p boids = some arr1)
    (h2 : update_boids_twophase p boids = some arr2) :
    arr1[0]? = arr2[0]? := by
  unfold update_boids at h1
  unfold update_boids_twophase at h2
  cases hn : boids.length with
  | zero =>
    rw [hn] at h1 h2
    simp only [List.range_zero, seqStep] at h1
    simp only [List.range_zero, mapStep] at h2
    cases h1
    cases h2
    rw [List.length_eq_zero.mp hn]
  | succ m =>
    rw [hn, List.range_succ_eq_map] at h1 h2
    simp only [seqStep] at h1
    simp only [mapStep] at h2
    cases harr : boids[0]? with
    | none =>
      simp only [harr, Option.none_bind] at h1
      exact Option.noConfusion h1
    | some b0 =>
      simp only [harr, Option.some_bind] at h1 h2
      cases hstep : stepBoid p (buildGrid p boids) boids 0 b0 with
      | none =>
        simp only [hstep, Option.none_bind] at h1
        exact Option.noConfusion h1
      | some b0' =>
        simp only [hstep, Option.some_bind] at h1 h2
        have hnotmem : 0 ∉ (List.range m).map Nat.succ := by simp
        have hget := seqStep_get_of_not_mem p (buildGrid p boids) _ _ _ 0 h1 hnotmem
        have h0lt : 0 < boids.length := by omega
        rcases Option.map_eq_some'.mp h2 with ⟨rest', hrest, hcons⟩
        rw [hget, List.getElem?_set_self h0lt, ← hcons]
        simp

theorem C2_sequential_vs_twophase_head_witness :
    ([boidA1, boidB1] : List Boid)[0]? = ([boidA1, boidB2] : List Boid)[0]? :=
  C2_sequential_vs_twophase_head scenParams scen [boidA1, boidB1] [boidA1, boidB2]
    updateScen updateTwo

/-- C3 (counterexample).  In the spec's two-agent scenario the code does not
produce ±0.45.  `A`'s x-velocity after the three force rules is 0.4725, not
0.45, because alignment reads the velocity already mutated by cohesion and
separation (0.55 + (−1 − 0.55)·0.05 = 0.4725).  `B`'s is −0.511824375, not
−0.45, because `B` is updated after `A` in the same loop and, at delay 1,
reads `A`'s freshly committed tick-1 state.  Moreover the boundary rule is
not a no-op at these positions: x = y = 0 < margin 200, so it changes `A`'s
x-velocity (0.4725 to 1.4725). -/
theorem C3_counterexample :
    getNeighborsWithDelay scenParams (buildGrid scenParams scen) scen 0 boidA =
      some [nbrA] ∧
    (forcesPhase boidA [nbrA]).dx ≠ 0.45 ∧
    stepBoid scenParams (buildGrid scenParams scen) scen 0 boidA = some boidA1 ∧
    getNeighborsWithDelay scenParams (buildGrid scenParams scen) [boidA1, boidB] 1 boidB =
      some [nbrB] ∧
    (forcesPhase boidB [nbrB]).dx ≠ -0.45 ∧
    (keep_within_bounds scenParams (forcesPhase boidA [nbrA])).dx ≠
      (forcesPhase boidA [nbrA]).dx := by
  refine ⟨queryA, ?_, stepA, queryBseq, ?_, ?_⟩
  · rw [forcesA]
    norm_num
  · rw [forcesB]
    norm_num
  · rw [forcesA, boundsA]
    norm_num

/-- C3 (amended).  In the scenario, after the first tick's force phase and
before boundary/speed-limit, `A`'s x-velocity is exactly 0.4725 (alignment
uses the already-mutated velocity: 1 + 0.05 − 0.5 − (1.55)·0.05) and `B`'s
is exactly −0.511824375 (`B`, updated after `A`, perceives `A`'s
already-committed tick-1 state at delay 1, not `A`'s pre-tick state).  The
speed limiter is indeed a no-op, but the boundary rule is not: both
coordinates of each agent lie below the 200-pixel margin, adding +1 to each
velocity component before integration. -/
theorem C3_scenario_values :
    getNeighborsWithDelay scenParams (buildGrid scenParams scen) scen 0 boidA =
      some [nbrA] ∧
    (forcesPhase boidA [nbrA]).dx = 0.4725 ∧
    getNeighborsWithDelay scenParams (buildGrid scenParams scen) [boidA1, boidB] 1 boidB =
      some [nbrB] ∧
    (forcesPhase boidB [nbrB]).dx = -0.511824375 ∧
    update_boids scenParams scen = some [boidA1, boidB1] := by
  refine ⟨queryA, ?_, queryBseq, ?_, updateScen⟩
  · rw [forcesA]
  · rw [forcesB]

theorem forces_hist (b : Boid) (ns : List NeighborInfo) :
    (forcesPhase b ns).position_history = b.position_history ∧
    (forcesPhase b ns).velocity_history = b.velocity_history := by
  simp only [forcesPhase, match_velocity, avoid_others, fly_towards_center]
  split_ifs <;> exact ⟨rfl, rfl⟩

theorem bounds_hist (p : Params) (b : Boid) :
    (keep_within_bounds p b).position_history = b.position_history ∧
    (keep_within_bounds p b).velocity_history = b.velocity_history := by
  simp only [keep_within_bounds]
  split_ifs <;> exact ⟨rfl, rfl⟩

theorem limit_hist (b : Boid) :
    (limit_speed b).position_history = b.position_history ∧
    (limit_speed b).velocity_history = b.velocity_history := by
  unfold limit_speed
  split_ifs <;> exact ⟨rfl, rfl⟩

theorem stepBoid_histOK (D : ℕ) (hcap : D + 1 ≤ 100) (p : Params)
    (g : ℤ × ℤ → List ℕ) (arr : List Boid) (i : ℕ) (b b' : Boid)
    (hb : histOK D b) (h : stepBoid p g arr i b = some b') : histOK D b' := by
  unfold stepBoid at h
  cases hq : getNeighborsWithDelay p g arr i b with
  | none => rw [hq] at h; exact Option.noConfusion h
  | some ns =>
    rw [hq, Option.map_some'] at h
    cases h
    obtain ⟨hfp, hfv⟩ := forces_hist b ns
    obtain ⟨hbp, hbv⟩ := bounds_hist p (forcesPhase b ns)
    obtain ⟨hlp, hlv⟩ := limit_hist (keep_within_bounds p (forcesPhase b ns))
    obtain ⟨h1, h2, h3, h4, h5⟩ := hb
    unfold histOK integrate HistDeque.push
    simp only [hlp, hlv, hbp, hbv, hfp, hfv, h1, h2]
    refine ⟨by trivial, by trivial, ?_, ?_, ?_⟩ <;> rw [pushMax_length] <;> omega

theorem seqStep_preserve (p : Params) (g : ℤ × ℤ → List ℕ) (Q : Boid → Prop)
    (hstep : ∀ arr i b b', Q b → stepBoid p g arr i b = some b' → Q b') :
    ∀ idxs arr arr', (∀ (k : ℕ) (b0 : Boid), arr[k]? = some b0 → Q b0) →
      seqStep p g idxs arr = some arr' →
      ∀ (k : ℕ) (b0 : Boid), arr'[k]? = some b0 → Q b0 := by
  intro idxs
  induction idxs with
  | nil =>
    intro arr arr' hall h
    simp only [seqStep] at h
    cases h
    exact hall
  | cons j rest ih =>
    intro arr arr' hall h
    simp only [seqStep] at h
    cases harr : arr[j]? with
    | none =>
      simp only [harr, Option.none_bind] at h
      exact Option.noConfusion h
    | some bj =>
      simp only [harr, Option.some_bind] at h
      cases hstep' : stepBoid p g arr j bj with
      | none =>
        simp only [hstep', Option.none_bind] at h
        exact Option.noConfusion h
      | some bj' =>
        simp only [hstep', Option.some_bind] at h
        refine ih (arr.set j bj') arr' ?_ h
        intro k b0 hk
        by_cases hkj : k = j
        · subst hkj
          by_cases hlt : k < arr.length
          · rw [List.getElem?_set_self hlt] at hk
            cases hk
            exact hstep arr k bj bj' (hall k bj harr) hstep'
          · rw [List.getElem?_eq_none (by rw [List.length_set]; omega)] at hk
            exact Option.noConfusion hk
        · rw [List.getElem?_set_ne (fun hji => hkj hji.symm)] at hk
          exact hall k b0 hk

theorem negIndex_ne_none {h : List α} {D : ℕ} (hle : D ≤ h.length) (hD : 1 ≤ D) :
    negIndex h D ≠ none := by
  unfold negIndex
  rw [if_neg (by omega : ¬ D = 0), if_pos hle]
  intro hc
  rw [List.getElem?_eq_none_iff] at hc
  omega

/-- C9.  The history buffers keep their construction-time shape forever: the
position buffer has capacity 100 and the velocity buffer capacity
`delay + 1`; a push at capacity evicts the oldest sample before appending;
at creation both buffers hold exactly `delay + 1` copies of the boid's
initial sample; the shape invariant is preserved by every tick; and under
it the delayed reads at the configured delay are defined (never an
`IndexError`) and the buffers are never empty.  (Stated for delays with
`delay + 1 ≤ 100`, which covers the whole permitted range [1, 10].) -/
theorem C9_history_invariants (D : ℕ) (hD : 1 ≤ D) (hcap : D + 1 ≤ 100) :
    (∀ (w h : ℝ) (n : ℤ) (vr : ℝ) (r : ℕ → ℝ × ℝ × ℝ × ℝ),
      ∀ b ∈ (mkSim w h D n vr r).boids,
        b.position_history.items = List.replicate (D + 1) (b.x, b.y) ∧
        b.velocity_history.items = List.replicate (D + 1) (b.dx, b.dy) ∧
        histOK D b) ∧
    (∀ (l : List (ℝ × ℝ)) (cap : ℕ) (a : ℝ × ℝ), l.length = cap → 1 ≤ cap →
      pushMax cap l a = l.tail ++ [a]) ∧
    (∀ (p : Params) (boids arr' : List Boid),
      (∀ b ∈ boids, histOK D b) → update_boids p boids = some arr' →
      ∀ b' ∈ arr', histOK D b') ∧
    (∀ b : Boid, histOK D b →
      negIndex b.position_history.items D ≠ none ∧
      negIndex b.velocity_history.items D ≠ none ∧
      b.position_history.items ≠ [] ∧ b.velocity_history.items ≠ []) := by
  refine ⟨?_, ?_, ?_, ?_⟩
  · intro w hh n vr r b hb
    simp only [mkSim, List.mem_map] at hb
    obtain ⟨k, hk, rfl⟩ := hb
    have hpos : histSeed 100 (D + 1) ((r k).1 * w, (r k).2.1 * hh) =
        List.replicate (D + 1) ((r k).1 * w, (r k).2.1 * hh) := by
      rw [histSeed_eq_replicate]
      congr 1
      omega
    have hvel : histSeed (D + 1) (D + 1) ((r k).2.2.1 * 10 - 5, (r k).2.2.2 * 10 - 5) =
        List.replicate (D + 1) ((r k).2.2.1 * 10 - 5, (r k).2.2.2 * 10 - 5) := by
      rw [histSeed_eq_replicate]
      congr 1
      omega
    simp only [mkBoid, histOK, hpos, hvel, List.length_replicate]
    refine ⟨by trivial, by trivial, by trivial, by trivial, by omega, by omega, by trivial⟩
  · intro l cap a hlen hcap1
    cases l with
    | nil => simp at hlen; omega
    | cons hd tl =>
      unfold pushMax
      simp only [List.length_cons] at hlen ⊢
      rw [show tl.length + 1 + 1 - cap = 1 by omega]
      simp
  · intro p boids arr' hall h
    intro b' hb'
    obtain ⟨k, hk⟩ := List.getElem?_of_mem hb'
    unfold update_boids at h
    refine seqStep_preserve p (buildGrid p boids) (histOK D)
      (fun arr i b b' hQ hs => stepBoid_histOK D hcap p (buildGrid p boids) arr i b b' hQ hs)
      _ _ _ ?_ h k b' hk
    intro k0 b0 hk0
    exact hall b0 (List.getElem?_mem hk0)
  · intro b hb
    obtain ⟨h1, h2, h3, h4, h5⟩ := hb
    refine ⟨negIndex_ne_none (by omega) hD, negIndex_ne_none (by omega) hD, ?_, ?_⟩
    · intro hnil
      rw [hnil] at h3
      simp at h3
    · intro hnil
      rw [hnil] at h5
      simp at h5

theorem C9_history_invariants_witness :
    pushMax 2 [((1 : ℝ), (2 : ℝ)), (3, 4)] (5, 6) = [(3, 4), (5, 6)] ∧
    histOK 1 boidA1 ∧
    negIndex boidA.position_history.items 1 ≠ none := by
  have hC9 := C9_history_invariants 1 (by norm_num) (by norm_num)
  refine ⟨?_, ?_, ?_⟩
  · exact hC9.2.1 [((1 : ℝ), (2 : ℝ)), (3, 4)] 2 (5, 6) (by norm_num) (by norm_num)
  · refine hC9.2.2.1 scenParams scen [boidA1, boidB1] ?_ updateScen boidA1 (by simp)
    intro b hb
    simp only [scen, List.mem_cons, List.not_mem_nil, or_false] at hb
    rcases hb with rfl | rfl
    · exact ⟨rfl, rfl, by norm_num [boidA], by norm_num [boidA], rfl⟩
    · exact ⟨rfl, rfl, by norm_num [boidB], by norm_num [boidB], rfl⟩
  · exact (hC9.2.2.2 boidA ⟨rfl, rfl, by norm_num [boidA], by norm_num [boidA], rfl⟩).1
